import Mathlib

/-!
# Verification of the CRUSH-rule reconciler (`ceph_crush_rule.py`)

A shallow embedding of the `ceph.automation` collection's CRUSH-rule module.
Text is modelled as `List Char` (one Python `str` character per list entry),
CRUSH-map contents as the raw character list of the decompiled map, rules as
structured records mirroring the JSON dumped by `ceph osd crush rule dump`.

Python string primitives used by the module (`str.splitlines`, `str.split`,
`str.replace`, `str.startswith`, `'\n'.join`) are embedded as executable
functions below, faithful to CPython semantics on the character sets that can
occur here (`splitlines` is modelled for the LF / CRLF / CR line boundaries).
-/

namespace CephCrushRule

/-- ASCII whitespace recognised by the `\s` class of the module's regexes
(the characters of Python's `[ \t\n\r\f\v]`). -/
def isSpaceCh (c : Char) : Bool :=
  c = ' ' || c = '\t' || c = '\n' || c = '\r' || c = '\x0b' || c = '\x0c'

/-- Auxiliary scanner for `str.splitlines`: `acc` holds the (reversed)
characters of the line being accumulated. A line terminator emits the line;
a terminator at the very end of the input does not open a further line. -/
def splitlinesAux : List Char → List Char → List (List Char)
  | [], acc => [acc.reverse]
  | c :: rest, acc =>
    if c = '\n' then
      acc.reverse :: (if rest = [] then [] else splitlinesAux rest [])
    else if c = '\r' then
      match rest with
      | c2 :: rest2 =>
        if c2 = '\n' then
          acc.reverse :: (if rest2 = [] then [] else splitlinesAux rest2 [])
        else
          acc.reverse :: splitlinesAux (c2 :: rest2) []
      | [] => [acc.reverse]
    else
      splitlinesAux rest (c :: acc)

/-- Python `str.splitlines()` (no terminators kept, `""` gives `[]`),
modelled for the `\n`, `\r\n` and `\r` boundaries. -/
def splitlines (s : List Char) : List (List Char) :=
  if s = [] then [] else splitlinesAux s []

/-- Python `'\n'.join(lines)`. -/
def joinNL (lines : List (List Char)) : List Char :=
  List.intercalate ['\n'] lines

/-- Python `str.split(sep)` for a one-character separator (no maxsplit). -/
def strSplit (sep : Char) : List Char → List (List Char)
  | [] => [[]]
  | c :: rest =>
    if c = sep then [] :: strSplit sep rest
    else
      match strSplit sep rest with
      | [] => [[c]]
      | h :: t => (c :: h) :: t

/-- Fuel-indexed worker for Python `str.replace`: replaces the leftmost
occurrence of `old`, then continues after the inserted `new` (occurrences are
non-overlapping, the replacement text is not rescanned).  The fuel only bounds
the recursion; `replaceAll` supplies enough for the whole input. -/
def replaceAllF : Nat → List Char → List Char → List Char → List Char
  | 0, _, _, s => s
  | _ + 1, _, _, [] => []
  | fuel + 1, old, new, c :: cs =>
    if old ≠ [] ∧ old.isPrefixOf (c :: cs) then
      new ++ replaceAllF fuel old new ((c :: cs).drop old.length)
    else
      c :: replaceAllF fuel old new cs

/-- Python `s.replace(old, new)` for a non-empty `old` (every call site in the
module passes a non-empty pattern: a regex group matched by `\S+`, or
`" class " ++ cls`). -/
def replaceAll (old new s : List Char) : List Char :=
  replaceAllF s.length old new s

/-! ## Basic lemmas about the string model -/

theorem strSplit_ne_nil (sep : Char) (s : List Char) : strSplit sep s ≠ [] := by
  induction s with
  | nil => simp [strSplit]
  | cons c rest ih =>
    simp only [strSplit]
    split
    · simp
    · cases h : strSplit sep rest with
      | nil => simp
      | cons h t => simp

theorem strSplit_no_sep {sep : Char} {s : List Char} (h : sep ∉ s) :
    strSplit sep s = [s] := by
  induction s with
  | nil => rfl
  | cons c rest ih =>
    simp only [List.mem_cons, not_or] at h
    simp only [strSplit, if_neg (Ne.symm h.1), ih h.2]

theorem strSplit_append_sep {sep : Char} {a : List Char} (b : List Char)
    (h : sep ∉ a) : strSplit sep (a ++ sep :: b) = a :: strSplit sep b := by
  induction a with
  | nil => simp [strSplit]
  | cons c rest ih =>
    simp only [List.mem_cons, not_or] at h
    simp only [List.cons_append, strSplit, if_neg (Ne.symm h.1), List.append_eq, ih h.2]

/-- Fuel irrelevance: any fuel at least the length of the input computes the
same result. -/
theorem replaceAllF_fuel {old new : List Char} :
    ∀ fuel s, s.length ≤ fuel → replaceAllF fuel old new s = replaceAll old new s := by
  intro fuel
  induction fuel using Nat.strong_induction_on with
  | _ fuel ih =>
    intro s hs
    match fuel, s with
    | 0, s =>
      have : s = [] := List.length_eq_zero.mp (Nat.le_zero.mp hs)
      subst this; rfl
    | n + 1, [] => rfl
    | n + 1, c :: cs =>
      have hcs : cs.length ≤ n := by
        simpa using hs
      by_cases hc : old ≠ [] ∧ old.isPrefixOf (c :: cs) = true
      · have h1 : 0 < old.length := List.length_pos.mpr hc.1
        have hd : ((c :: cs).drop old.length).length ≤ n := by
          simp only [List.length_drop, List.length_cons]; omega
        have hd2 : ((c :: cs).drop old.length).length ≤ cs.length := by
          simp only [List.length_drop, List.length_cons]; omega
        calc replaceAllF (n + 1) old new (c :: cs)
            = new ++ replaceAllF n old new ((c :: cs).drop old.length) := by
              simp only [replaceAllF, if_pos hc]
          _ = new ++ replaceAll old new ((c :: cs).drop old.length) := by
              rw [ih n (Nat.lt_succ_self n) _ hd]
          _ = new ++ replaceAllF cs.length old new ((c :: cs).drop old.length) := by
              rw [ih cs.length (Nat.lt_succ_of_le hcs) _ hd2]
          _ = replaceAllF (cs.length + 1) old new (c :: cs) := by
              simp only [replaceAllF, if_pos hc]
          _ = replaceAll old new (c :: cs) := rfl
      · calc replaceAllF (n + 1) old new (c :: cs)
            = c :: replaceAllF n old new cs := by
              simp only [replaceAllF, if_neg hc]
          _ = c :: replaceAll old new cs := by rw [ih n (Nat.lt_succ_self n) _ hcs]
          _ = c :: replaceAllF cs.length old new cs := rfl
          _ = replaceAllF (cs.length + 1) old new (c :: cs) := by
              simp only [replaceAllF, if_neg hc]
          _ = replaceAll old new (c :: cs) := rfl

/-- Unfolding: empty input. -/
theorem replaceAll_nil (old new : List Char) : replaceAll old new [] = [] := rfl

/-- Unfolding: a match at the head replaces it and continues after it. -/
theorem replaceAll_pos {old : List Char} (new : List Char) {s : List Char}
    (h0 : old ≠ []) (hp : old.isPrefixOf s) :
    replaceAll old new s = new ++ replaceAll old new (s.drop old.length) := by
  match s with
  | [] =>
    cases old with
    | nil => exact absurd rfl h0
    | cons o os => simp [List.isPrefixOf] at hp
  | c :: cs =>
    have h1 : 0 < old.length := List.length_pos.mpr h0
    have hc : old ≠ [] ∧ old.isPrefixOf (c :: cs) = true := ⟨h0, hp⟩
    show replaceAllF (cs.length + 1) old new (c :: cs) = _
    rw [show replaceAllF (cs.length + 1) old new (c :: cs)
          = new ++ replaceAllF cs.length old new ((c :: cs).drop old.length) from by
        simp only [replaceAllF, if_pos hc]]
    rw [replaceAllF_fuel cs.length _
        (by simp only [List.length_drop, List.length_cons]; omega)]

/-- Unfolding: no match at the head keeps the character. -/
theorem replaceAll_neg {old : List Char} (new : List Char) {c : Char} {cs : List Char}
    (h : ¬(old ≠ [] ∧ old.isPrefixOf (c :: cs) = true)) :
    replaceAll old new (c :: cs) = c :: replaceAll old new cs := by
  show replaceAllF (cs.length + 1) old new (c :: cs) = _
  rw [show replaceAllF (cs.length + 1) old new (c :: cs)
        = c :: replaceAllF cs.length old new cs from by
      simp only [replaceAllF, if_neg h]]
  rfl

/-- `pat` occurs in `s` only at position `k` (as a contiguous substring). -/
def uniqueOccurAt (pat s : List Char) (k : Nat) : Prop :=
  ∀ i, pat <+: s.drop i → i = k

/-- If `pat` occurs nowhere in `s`, `replaceAll` is the identity. -/
theorem replaceAll_eq_self_of_no_occ {pat : List Char} (new : List Char)
    {s : List Char} (h : ∀ i, ¬ pat <+: s.drop i) :
    replaceAll pat new s = s := by
  induction s with
  | nil => rfl
  | cons c cs ih =>
    have hnc : ¬ (pat ≠ [] ∧ pat.isPrefixOf (c :: cs) = true) := by
      intro hcon
      exact h 0 (by simpa using hcon.2)
    rw [replaceAll_neg new hnc, ih]
    intro i hi
    exact h (i + 1) (by simpa [List.drop_succ_cons] using hi)

/-- If `pat` occurs in `A ++ pat ++ B` only at the position after `A`,
Python's `replace` rewrites exactly that occurrence. -/
theorem replaceAll_unique (pat new A B : List Char)
    (h0 : pat ≠ [])
    (hu : ∀ i, pat <+: (A ++ pat ++ B).drop i → i = A.length) :
    replaceAll pat new (A ++ pat ++ B) = A ++ new ++ B := by
  induction A with
  | nil =>
    simp only [List.nil_append] at hu ⊢
    rw [replaceAll_pos new h0 (by simp), List.drop_left]
    rw [replaceAll_eq_self_of_no_occ new]
    intro i hi
    have hd : (pat ++ B).drop (pat.length + i) = B.drop i := by
      rw [List.drop_append]
    have h00 : pat.length + i = 0 := by
      simpa using hu (pat.length + i) (by rw [hd]; exact hi)
    have hp : 0 < pat.length := List.length_pos.mpr h0
    omega
  | cons a A' ih =>
    have hshape : (a :: A') ++ pat ++ B = a :: (A' ++ pat ++ B) := by simp
    rw [hshape]
    have hnm : ¬ (pat ≠ [] ∧ pat.isPrefixOf (a :: (A' ++ pat ++ B)) = true) := by
      intro hcon
      have h00 := hu 0 (by rw [hshape]; simpa using hcon.2)
      simp at h00
    rw [replaceAll_neg new hnm]
    have hu' : ∀ i, pat <+: (A' ++ pat ++ B).drop i → i = A'.length := by
      intro i hi
      have := hu (i + 1) (by rw [hshape]; simpa [List.drop_succ_cons] using hi)
      simpa using this
    rw [ih hu']
    simp

/-- A bounded, decidable check implies `uniqueOccurAt` (positions past the
end of `s` cannot host an occurrence of a non-empty pattern). -/
theorem uniqueOccurAt_of_bounded {pat s : List Char} {k : Nat} (h0 : pat ≠ [])
    (hb : ∀ i ∈ List.range (s.length + 1), pat.isPrefixOf (s.drop i) = true → i = k) :
    uniqueOccurAt pat s k := by
  intro i hi
  by_cases hle : i ≤ s.length
  · exact hb i (List.mem_range.mpr (by omega)) (by simpa using hi)
  · exfalso
    rw [List.drop_of_length_le (by omega)] at hi
    exact h0 (List.prefix_nil.mp hi)

/-- `takeWhile` walks through a block of satisfying characters. -/
theorem takeWhile_append_all {p : Char → Bool} {a : List Char} (b : List Char)
    (h : ∀ c ∈ a, p c = true) :
    (a ++ b).takeWhile p = a ++ b.takeWhile p := by
  induction a with
  | nil => rfl
  | cons c cs ih =>
    have hc : p c = true := h c (List.mem_cons_self c cs)
    simp only [List.cons_append, List.takeWhile_cons, hc, if_true]
    rw [ih fun x hx => h x (List.mem_cons_of_mem c hx)]

/-- `dropWhile` skips a block of satisfying characters. -/
theorem dropWhile_append_all {p : Char → Bool} {a : List Char} (b : List Char)
    (h : ∀ c ∈ a, p c = true) :
    (a ++ b).dropWhile p = b.dropWhile p := by
  induction a with
  | nil => rfl
  | cons c cs ih =>
    have hc : p c = true := h c (List.mem_cons_self c cs)
    simp only [List.cons_append, List.dropWhile_cons, hc, if_true]
    exact ih fun x hx => h x (List.mem_cons_of_mem c hx)

/-- `takeWhile` of an all-satisfying list is the list itself. -/
theorem takeWhile_all_self {p : Char → Bool} {a : List Char}
    (h : ∀ c ∈ a, p c = true) : a.takeWhile p = a := by
  have := takeWhile_append_all (p := p) [] h
  simpa using this

/-- `dropWhile` stops at a non-satisfying head. -/
theorem dropWhile_cons_neg {p : Char → Bool} {c : Char} (cs : List Char)
    (h : p c = false) : (c :: cs).dropWhile p = c :: cs := by
  simp [List.dropWhile_cons, h]

/-! ## The CRUSH-map text editor (`patch_content`) -/

/-- Strip a literal pattern from the front: `some rest` iff `pre` is a
character-for-character prefix. -/
def dropPrefixQ (pre s : List Char) : Option (List Char) :=
  if pre.isPrefixOf s then some (s.drop pre.length) else none

/-- Matcher for the module's regex `^\s*step take (\S+)( class (\S+))?$`:
returns the captures `(root, optional class)` exactly when the regex accepts
the whole line.  Greedy `\S+` never backtracks productively here because the
optional group starts with a mandatory space. -/
def matchStepTake (line : List Char) : Option (List Char × Option (List Char)) :=
  let afterWs := line.dropWhile isSpaceCh
  match dropPrefixQ "step take ".data afterWs with
  | none => none
  | some rest =>
    let root := rest.takeWhile (fun c => !isSpaceCh c)
    if root = [] then none
    else
      let rest2 := rest.drop root.length
      if rest2 = [] then some (root, none)
      else
        match dropPrefixQ " class ".data rest2 with
        | none => none
        | some cls =>
          if cls ≠ [] ∧ (∀ c ∈ cls, isSpaceCh c = false) then some (root, some cls)
          else none

/-- Matcher for the module's regex `^\s*step chooseleaf firstn 0 type (\S+)$`. -/
def matchChooseleaf (line : List Char) : Option (List Char) :=
  let afterWs := line.dropWhile isSpaceCh
  match dropPrefixQ "step chooseleaf firstn 0 type ".data afterWs with
  | none => none
  | some rest =>
    if rest ≠ [] ∧ (∀ c ∈ rest, isSpaceCh c = false) then some rest else none

/-- The module parameters consumed by `patch_content`: `name`, `bucket_root`,
`bucket_type` (the failure domain) and the optional `device_class`.  The
argument spec (`required_if`) guarantees `bucket_root`/`bucket_type` are
present whenever the replicated-rule patching path runs. -/
structure PatchParams where
  name : List Char
  bucket_root : List Char
  bucket_type : List Char
  device_class : Option (List Char)

/-- The body of `patch_content`'s loop for a line inside the target rule
block: the `step take` amendments (lines 289–302 of the module) and the
`step chooseleaf` amendment (lines 305–309).  Python truthiness of
`device_class` (`None` and `''` are both falsy) is rendered by the
emptiness tests. -/
def patchLine (p : PatchParams) (line : List Char) : List Char :=
  match matchStepTake line with
  | some (exist_root, g3) =>
    -- crushmap[i] = line.replace(exist_root, bucket_root)
    let l1 := replaceAll exist_root p.bucket_root line
    match p.device_class, g3 with
    | some dc, none =>
      -- add device class if specified in the config but missing
      if dc ≠ [] then l1 ++ " class ".data ++ dc else l1
    | none, some cls =>
      -- remove device class if unspecified in the user configuration
      if cls ≠ [] then replaceAll (" class ".data ++ cls) [] l1 else l1
    | some dc, some cls =>
      -- change device class name if it exists and is specified in the config
      if dc ≠ [] ∧ cls ≠ [] then replaceAll cls dc l1 else l1
    | none, none => l1
  | none =>
    match matchChooseleaf line with
    | some exist_dom => replaceAll exist_dom p.bucket_type line
    | none => line

/-- The line scan of `patch_content` (lines 278–309): enter the target block
at a line starting with `rule <name>`, stop at the first line starting with
`}` while inside (Python `break`: all later lines pass through untouched),
patch the lines in between. -/
def patchLoop (p : PatchParams) : Bool → List (List Char) → List (List Char)
  | _, [] => []
  | inside, l :: rest =>
    if ("rule ".data ++ p.name).isPrefixOf l then
      l :: patchLoop p true rest
    else if inside && "\x7d".data.isPrefixOf l then
      l :: rest
    else if inside then
      patchLine p l :: patchLoop p true rest
    else
      l :: patchLoop p false rest

/-- `patch_content` (lines 259–312): split into lines, patch the target
rule's block, rejoin with `'\n'`. -/
def patch_content (p : PatchParams) (crushmap_content : List Char) : List Char :=
  joinNL (patchLoop p false (splitlines crushmap_content))

/-- Characteristic mask of the lines the scanner subjects to patching: `true`
exactly at the positions strictly inside the target rule block it locates
(after a `rule <name>` line, before the closing `}`). -/
def insideMask (name : List Char) : Bool → List (List Char) → List Bool
  | _, [] => []
  | inside, l :: rest =>
    if ("rule ".data ++ name).isPrefixOf l then
      false :: insideMask name true rest
    else if inside && "\x7d".data.isPrefixOf l then
      false :: rest.map (fun _ => false)
    else if inside then
      true :: insideMask name true rest
    else
      false :: insideMask name false rest

/-- Builder for a `step take` line: leading whitespace, the literal
`step take `, a root token, and an optional ` class <cls>` suffix. -/
def takeLine (ws root : List Char) (g3 : Option (List Char)) : List Char :=
  ws ++ "step take ".data ++ root ++
    (match g3 with
     | none => []
     | some cls => " class ".data ++ cls)

/-- The device-class component of a `step take` line after patching, as the
code computes it: a non-empty desired class is appended or substituted, an
absent (`None`) desired class removes an existing one, and the Python-falsy
empty-string class leaves the existing class untouched. -/
def classAfterPatch (dc g3 : Option (List Char)) : Option (List Char) :=
  match dc, g3 with
  | some d, none => if d = [] then none else some d
  | none, some _ => none
  | some d, some cls => if d = [] then some cls else some d
  | none, none => none

theorem isPrefixOf_append_self (a b : List Char) : a.isPrefixOf (a ++ b) = true := by
  induction a with
  | nil => simp [List.isPrefixOf]
  | cons c cs ih => simp [List.isPrefixOf, ih]

theorem dropPrefixQ_append (pre z : List Char) :
    dropPrefixQ pre (pre ++ z) = some z := by
  simp [dropPrefixQ, isPrefixOf_append_self, List.drop_left]

/-- The scan changes the length of no line list and leaves every line whose
`insideMask` entry is `false` untouched. -/
theorem patchLoop_frame (p : PatchParams) :
    ∀ (inside : Bool) (lines : List (List Char)),
      (patchLoop p inside lines).length = lines.length ∧
      ∀ i, (insideMask p.name inside lines).getD i true = false →
        (patchLoop p inside lines).getD i [] = lines.getD i [] := by
  intro inside lines
  induction lines generalizing inside with
  | nil => exact ⟨rfl, fun i _ => rfl⟩
  | cons l rest ih =>
    by_cases h1 : (("rule ".data ++ p.name).isPrefixOf l) = true
    · simp only [patchLoop, insideMask, h1, if_true]
      refine ⟨by simpa using (ih true).1, ?_⟩
      intro i hi
      match i with
      | 0 => rfl
      | i + 1 =>
        simp only [List.getD_cons_succ] at hi ⊢
        exact (ih true).2 i hi
    · rw [Bool.not_eq_true] at h1
      cases inside with
      | false =>
        simp only [patchLoop, insideMask, h1, Bool.false_eq_true, if_false,
          Bool.false_and]
        refine ⟨by simpa using (ih false).1, ?_⟩
        intro i hi
        match i with
        | 0 => rfl
        | i + 1 =>
          simp only [List.getD_cons_succ] at hi ⊢
          exact (ih false).2 i hi
      | true =>
        by_cases h2 : ("\x7d".data.isPrefixOf l) = true
        · simp only [patchLoop, insideMask, h1, h2, Bool.false_eq_true, if_false,
            Bool.true_and, if_true]
          exact ⟨by trivial, fun i _ => by trivial⟩
        · rw [Bool.not_eq_true] at h2
          simp only [patchLoop, insideMask, h1, h2, Bool.false_eq_true, if_false,
            Bool.true_and, if_true]
          refine ⟨by simpa using (ih true).1, ?_⟩
          intro i hi
          match i with
          | 0 => simp at hi
          | i + 1 =>
            simp only [List.getD_cons_succ] at hi ⊢
            exact (ih true).2 i hi

/-- If no line starts with `rule <name>`, the scan is the identity. -/
theorem patchLoop_id_of_no_rule (p : PatchParams) (lines : List (List Char))
    (h : ∀ l ∈ lines, (("rule ".data ++ p.name).isPrefixOf l) = false) :
    patchLoop p false lines = lines := by
  induction lines with
  | nil => rfl
  | cons l rest ih =>
    have h1 : (("rule ".data ++ p.name).isPrefixOf l) = false :=
      h l (List.mem_cons_self l rest)
    simp only [patchLoop, h1, Bool.false_eq_true, if_false, Bool.false_and]
    rw [ih fun x hx => h x (List.mem_cons_of_mem l hx)]

/-- The `step take` regex accepts exactly the lines of `takeLine` shape and
captures the root and class tokens. -/
theorem matchStepTake_takeLine (ws root : List Char) (g3 : Option (List Char))
    (hws : ∀ c ∈ ws, isSpaceCh c = true)
    (hr0 : root ≠ []) (hrs : ∀ c ∈ root, isSpaceCh c = false)
    (hcls : ∀ cls, g3 = some cls → cls ≠ [] ∧ ∀ c ∈ cls, isSpaceCh c = false) :
    matchStepTake (takeLine ws root g3) = some (root, g3) := by
  have hroot_all : ∀ c ∈ root, (!isSpaceCh c) = true := by
    intro c hc; simp [hrs c hc]
  match g3 with
  | none =>
    have hshape : takeLine ws root none = ws ++ ("step take ".data ++ root) := by
      simp [takeLine]
    rw [matchStepTake, hshape, dropWhile_append_all _ hws]
    rw [show "step take ".data ++ root = 's' :: ("tep take ".data ++ root) from by
      simp]
    rw [dropWhile_cons_neg _ (by decide)]
    rw [show 's' :: ("tep take ".data ++ root) = "step take ".data ++ root from by
      simp]
    rw [dropPrefixQ_append]
    simp only [takeWhile_all_self hroot_all, if_neg hr0, List.drop_length,
      if_pos rfl]
    simp
  | some cls =>
    obtain ⟨hc0, hcs⟩ := hcls cls rfl
    have hshape : takeLine ws root (some cls)
        = ws ++ ("step take ".data ++ (root ++ (" class ".data ++ cls))) := by
      simp [takeLine]
    rw [matchStepTake, hshape, dropWhile_append_all _ hws]
    rw [show "step take ".data ++ (root ++ (" class ".data ++ cls))
          = 's' :: ("tep take ".data ++ (root ++ (" class ".data ++ cls))) from by
      simp]
    rw [dropWhile_cons_neg _ (by decide)]
    rw [show 's' :: ("tep take ".data ++ (root ++ (" class ".data ++ cls)))
          = "step take ".data ++ (root ++ (" class ".data ++ cls)) from by
      simp]
    rw [dropPrefixQ_append]
    have htw : (root ++ (" class ".data ++ cls)).takeWhile (fun c => !isSpaceCh c)
        = root := by
      rw [takeWhile_append_all _ hroot_all]
      rw [show " class ".data ++ cls = ' ' :: ("class ".data ++ cls) from by simp]
      simp [List.takeWhile_cons, isSpaceCh]
    have hne : " class ".data ++ cls ≠ [] := by simp
    simp only [htw, if_neg hr0, List.drop_left, if_neg hne, dropPrefixQ_append]
    rw [if_pos ⟨hc0, hcs⟩]

/-- `replaceAll_unique` specialised to an occurrence that ends the string. -/
theorem replaceAll_unique_end (pat new A : List Char)
    (h0 : pat ≠ [])
    (hu : ∀ i, pat <+: (A ++ pat).drop i → i = A.length) :
    replaceAll pat new (A ++ pat) = A ++ new := by
  have h := replaceAll_unique pat new A [] h0 (by simpa using hu)
  simpa using h

/-- C2 (amended): on a line inside the target rule block matching
`step take <root> [class <class>]`, the per-line transform of `patch_content`
replaces the root token with `bucket_root` and adjusts the class suffix as the
claim describes (append when a non-empty `device_class` is given and no class
is present, remove the ` class <old>` suffix when `device_class` is absent,
substitute when both are present, and leave the class untouched for the falsy
empty-string `device_class`) — PROVIDED the replaced tokens occur in the line
only at their own positions.  Because the code uses Python `str.replace`,
which substitutes every occurrence, the conclusion fails without these
uniqueness hypotheses (see the counterexample). -/
theorem patchLine_takeLine (p : PatchParams) (ws root : List Char)
    (g3 : Option (List Char))
    (hws : ∀ c ∈ ws, isSpaceCh c = true)
    (hr0 : root ≠ []) (hrs : ∀ c ∈ root, isSpaceCh c = false)
    (hcls : ∀ cls, g3 = some cls → cls ≠ [] ∧ ∀ c ∈ cls, isSpaceCh c = false)
    (hur : uniqueOccurAt root (takeLine ws root g3)
      (ws ++ "step take ".data).length)
    (hrm : p.device_class = none → ∀ cls, g3 = some cls →
      uniqueOccurAt (" class ".data ++ cls) (takeLine ws p.bucket_root (some cls))
        (ws ++ "step take ".data ++ p.bucket_root).length)
    (hrp : ∀ d, p.device_class = some d → d ≠ [] → ∀ cls, g3 = some cls →
      uniqueOccurAt cls (takeLine ws p.bucket_root (some cls))
        (ws ++ "step take ".data ++ p.bucket_root ++ " class ".data).length) :
    patchLine p (takeLine ws root g3)
      = takeLine ws p.bucket_root (classAfterPatch p.device_class g3) := by
  have hm := matchStepTake_takeLine ws root g3 hws hr0 hrs hcls
  have hl1 : replaceAll root p.bucket_root (takeLine ws root g3)
      = takeLine ws p.bucket_root g3 := by
    match g3 with
    | none =>
      have h := replaceAll_unique_end root p.bucket_root
        (ws ++ "step take ".data) hr0
        (by simpa [takeLine] using hur)
      simpa [takeLine] using h
    | some cls =>
      have h := replaceAll_unique root p.bucket_root
        (ws ++ "step take ".data) (" class ".data ++ cls) hr0
        (by simpa [takeLine] using hur)
      simpa [takeLine] using h
  match g3 with
  | none =>
    cases hdc : p.device_class with
    | none =>
      simp only [patchLine, hm, hl1, hdc, classAfterPatch]
    | some d =>
      by_cases hd : d = []
      · simp only [patchLine, hm, hl1, hdc, hd, classAfterPatch]
        simp [takeLine]
      · simp only [patchLine, hm, hl1, hdc, classAfterPatch]
        rw [if_pos hd, if_neg hd]
        simp [takeLine, List.append_assoc]
  | some cls =>
    obtain ⟨hc0, hcsp⟩ := hcls cls rfl
    cases hdc : p.device_class with
    | none =>
      simp only [patchLine, hm, hl1, hdc, classAfterPatch]
      rw [if_pos hc0]
      have hu := hrm hdc cls rfl
      have h := replaceAll_unique_end (" class ".data ++ cls) []
        (ws ++ "step take ".data ++ p.bucket_root) (by simp)
        (by simpa [takeLine] using hu)
      calc replaceAll (" class ".data ++ cls) [] (takeLine ws p.bucket_root (some cls))
          = replaceAll (" class ".data ++ cls) []
              ((ws ++ "step take ".data ++ p.bucket_root) ++ (" class ".data ++ cls)) := by
            simp [takeLine]
        _ = (ws ++ "step take ".data ++ p.bucket_root) ++ [] := h
        _ = takeLine ws p.bucket_root none := by simp [takeLine]
    | some d =>
      by_cases hd : d = []
      · simp only [patchLine, hm, hl1, hdc, hd, classAfterPatch]
        simp [takeLine]
      · simp only [patchLine, hm, hl1, hdc, classAfterPatch]
        rw [if_pos ⟨hd, hc0⟩, if_neg hd]
        have hu := hrp d hdc hd cls rfl
        have h := replaceAll_unique_end cls d
          (ws ++ "step take ".data ++ p.bucket_root ++ " class ".data) hc0
          (by simpa [takeLine, List.append_assoc] using hu)
        calc replaceAll cls d (takeLine ws p.bucket_root (some cls))
            = replaceAll cls d
                ((ws ++ "step take ".data ++ p.bucket_root ++ " class ".data) ++ cls) := by
              simp [takeLine]
          _ = (ws ++ "step take ".data ++ p.bucket_root ++ " class ".data) ++ d := h
          _ = takeLine ws p.bucket_root (some d) := by simp [takeLine]

end CephCrushRule

namespace CephCrushRule

/-! ## Claim theorems about the text editor -/

/-- C1 (amended): `patch_content` is the newline-join of the scanned lines;
the scan preserves the number of lines and leaves every line outside the
target-rule block (the lines whose `insideMask` entry is `false`)
byte-for-byte identical.  The full output text equals the input outside the
block only up to line-terminator normalisation: `splitlines`/`'\n'.join`
drop a trailing terminator and normalise CRLF, so the text-level clause of
the claim holds exactly when the input is the LF-join of its lines (see the
counterexample for a trailing-newline input). -/
theorem patch_content_frame (p : PatchParams) (s : List Char) :
    patch_content p s = joinNL (patchLoop p false (splitlines s))
    ∧ (patchLoop p false (splitlines s)).length = (splitlines s).length
    ∧ ∀ i, (insideMask p.name false (splitlines s)).getD i true = false →
        (patchLoop p false (splitlines s)).getD i [] = (splitlines s).getD i [] :=
  ⟨rfl, (patchLoop_frame p false (splitlines s)).1,
    (patchLoop_frame p false (splitlines s)).2⟩

/-- Witness for C1: in a map holding rules `bar` and `foo`, the line
`step take x` of rule `bar` (index 1, outside the target block of `foo`)
is untouched by patching rule `foo`. -/
theorem patch_content_frame_witness :
    (insideMask "foo".data false
        (splitlines "rule bar \x7b\n        step take x\n\x7d\nrule foo \x7b\n        step take y\n\x7d".data)).getD
      1 true = false
    ∧ (patchLoop ⟨"foo".data, "rack1".data, "host".data, none⟩ false
        (splitlines "rule bar \x7b\n        step take x\n\x7d\nrule foo \x7b\n        step take y\n\x7d".data)).getD
      1 []
      = (splitlines "rule bar \x7b\n        step take x\n\x7d\nrule foo \x7b\n        step take y\n\x7d".data).getD
          1 [] :=
  ⟨by decide,
    (patch_content_frame ⟨"foo".data, "rack1".data, "host".data, none⟩
      "rule bar \x7b\n        step take x\n\x7d\nrule foo \x7b\n        step take y\n\x7d".data).2.2
      1 (by decide)⟩

/-- Counterexample for C1 as stated: with a trailing newline in the input and
no occurrence of the target rule at all (so every byte is outside the block),
the output is not byte-for-byte the input — the final `\n` is dropped by
`splitlines` + `'\n'.join`. -/
theorem patch_content_text_cex :
    patch_content ⟨"foo".data, "rack1".data, "host".data, none⟩
        "# begin crush map\n".data
      = "# begin crush map".data
    ∧ patch_content ⟨"foo".data, "rack1".data, "host".data, none⟩
        "# begin crush map\n".data
      ≠ "# begin crush map\n".data := by
  exact ⟨by decide, by decide⟩

/-- Witness for C2: `step take dflt class ssd` with desired
`bucket_root = rack1`, `device_class = hdd` becomes
`step take rack1 class hdd`; every hypothesis of the amended claim is
discharged on this concrete line. -/
theorem patchLine_takeLine_witness :
    patchLine ⟨"foo".data, "rack1".data, "host".data, some "hdd".data⟩
        (takeLine "        ".data "dflt".data (some "ssd".data))
      = takeLine "        ".data "rack1".data
          (classAfterPatch (some "hdd".data) (some "ssd".data)) := by
  apply patchLine_takeLine
  · decide
  · decide
  · decide
  · intro cls hcl
    cases hcl
    exact ⟨by decide, by decide⟩
  · apply uniqueOccurAt_of_bounded (by decide)
    decide
  · intro hn
    exact absurd hn (by simp)
  · intro d hd hne cls hcl
    cases hd
    cases hcl
    apply uniqueOccurAt_of_bounded (by decide)
    decide

/-- Counterexample for C2 as stated: on the block line `step take take`
(root token `take`), replacing the root with `default` also rewrites the
literal `take` keyword, because `str.replace` substitutes every occurrence;
the claim's predicted line `step take default` is not produced. -/
theorem patch_content_take_cex :
    patch_content ⟨"foo".data, "default".data, "host".data, none⟩
        "rule foo \x7b\n        step take take\n\x7d".data
      = "rule foo \x7b\n        step default default\n\x7d".data
    ∧ "rule foo \x7b\n        step default default\n\x7d".data
      ≠ "rule foo \x7b\n        step take default\n\x7d".data := by
  exact ⟨by decide, by decide⟩

/-- C6 (amended): when no line starts with `rule <name>`, `patch_content`
leaves every line unchanged and returns the LF-join of the input's lines —
the identity whenever the input is LF-separated with no trailing terminator
(total function, no error raised); on other inputs only the line
terminators are normalised (see the counterexample). -/
theorem patch_content_no_block_amended (p : PatchParams) (s : List Char)
    (h : ∀ l ∈ splitlines s, (("rule ".data ++ p.name).isPrefixOf l) = false) :
    patch_content p s = joinNL (splitlines s)
    ∧ (joinNL (splitlines s) = s → patch_content p s = s) := by
  have h1 : patchLoop p false (splitlines s) = splitlines s :=
    patchLoop_id_of_no_rule p _ h
  refine ⟨by rw [patch_content, h1], fun hn => by rw [patch_content, h1, hn]⟩

/-- Witness for C6: a map containing only the foreign rule `bar`, with no
trailing newline, passes through `patch_content` for target `foo` verbatim. -/
theorem patch_content_no_block_amended_witness :
    patch_content ⟨"foo".data, "rack1".data, "host".data, none⟩
        "rule bar \x7b\n        step take x\n\x7d".data
      = "rule bar \x7b\n        step take x\n\x7d".data :=
  (patch_content_no_block_amended ⟨"foo".data, "rack1".data, "host".data, none⟩
      "rule bar \x7b\n        step take x\n\x7d".data (by decide)).2 (by decide)

/-- Counterexample for C6 as stated: an input with no block for the target
rule but a trailing newline is not returned unchanged — the trailing
terminator is dropped, so `patch_content` is not the identity there. -/
theorem patch_content_no_block_cex :
    (∀ l ∈ splitlines "# crush map\n".data,
      (("rule ".data ++ "foo".data).isPrefixOf l) = false)
    ∧ patch_content ⟨"foo".data, "rack1".data, "host".data, none⟩
        "# crush map\n".data
      ≠ "# crush map\n".data := by
  exact ⟨by decide, by decide⟩

/-- C7: the scanner enters a block on `line.startswith('rule ' + name)`, a
prefix-substring test, not an exact rule-name token match: patching rule
`foo` on a map containing only `rule foobar` rewrites `foobar`'s block —
contradicting the module's own comment (`Work only with the specified rule,
skip other rule blocks`) and the spec.  This theorem evaluates the code at
the failing input. -/
theorem patch_content_prefix_bug :
    patch_content ⟨"foo".data, "rack1".data, "host".data, none⟩
        "rule foobar \x7b\n        step take default\n\x7d".data
      = "rule foobar \x7b\n        step take rack1\n\x7d".data
    ∧ "rule foobar \x7b\n        step take rack1\n\x7d".data
      ≠ "rule foobar \x7b\n        step take default\n\x7d".data := by
  exact ⟨by decide, by decide⟩

end CephCrushRule

namespace CephCrushRule

/-! ## The rule inspector (`need_changes`) -/

/-- A step of a dumped CRUSH rule, as decoded from
`ceph osd crush rule dump <name> --format=json`: the operation tag, the
`item_name` consumed for `take` steps and the `type` field consumed for
`chooseleaf_firstn` steps. -/
structure RuleStep where
  op : List Char
  item_name : List Char
  stype : List Char
deriving DecidableEq

/-- `need_changes` (lines 195–219): walk the rule's steps and return `True`
at the first divergent step.  For a `take` step, `item_name` is split on `~`;
the part before the first `~` is the existing root, the part after it (when a
`~` is present) is the existing class, `None` otherwise.  The module
parameters `bucket_root`, `bucket_type`, `device_class` are optional strings
(Python `None` ≠ any string, mirrored by `Option` equality). -/
def need_changes (bucket_root bucket_type device_class : Option (List Char)) :
    List RuleStep → Bool
  | [] => false
  | step :: rest =>
    if step.op = "take".data then
      let exist_bucket_root := strSplit '~' step.item_name
      let exist_root := exist_bucket_root.headI
      let exist_class : Option (List Char) :=
        if 1 < exist_bucket_root.length then some (exist_bucket_root.getD 1 [])
        else none
      if some exist_root ≠ bucket_root ∨ exist_class ≠ device_class then true
      else need_changes bucket_root bucket_type device_class rest
    else if step.op = "chooseleaf_firstn".data then
      if some step.stype ≠ bucket_type then true
      else need_changes bucket_root bucket_type device_class rest
    else need_changes bucket_root bucket_type device_class rest

/-- The existing root encoded in a `take` step's `item_name`: the part before
the first `~` (the whole name when no `~` occurs). -/
def existRootOf (item : List Char) : List Char :=
  item.takeWhile (fun c => c ≠ '~')

/-- The existing device class encoded in a `take` step's `item_name`: the
part strictly between the first and second `~` when a `~` occurs, absent
otherwise. -/
def existClassOf (item : List Char) : Option (List Char) :=
  if '~' ∈ item then
    some (((item.dropWhile (fun c => c ≠ '~')).tail).takeWhile (fun c => c ≠ '~'))
  else none

/-- A step diverges from the desired configuration, in the claim's terms: a
`take` step whose root or class differs from `bucket_root`/`device_class`, or
a `chooseleaf_firstn` step whose type differs from `bucket_type`. -/
def stepDiverges (bucket_root bucket_type device_class : Option (List Char))
    (step : RuleStep) : Prop :=
  (step.op = "take".data ∧
    (some (existRootOf step.item_name) ≠ bucket_root ∨
      existClassOf step.item_name ≠ device_class))
  ∨ (step.op = "chooseleaf_firstn".data ∧ some step.stype ≠ bucket_type)

theorem strSplit_headI (sep : Char) (item : List Char) :
    (strSplit sep item).headI = item.takeWhile (fun c => c ≠ sep) := by
  induction item with
  | nil => rfl
  | cons c rest ih =>
    by_cases hc : c = sep
    · subst hc
      simp [strSplit, List.takeWhile_cons]
    · simp only [strSplit, if_neg hc, List.takeWhile_cons, if_pos, decide_eq_true_eq]
      cases hsp : strSplit sep rest with
      | nil => exact absurd hsp (strSplit_ne_nil sep rest)
      | cons h t =>
        rw [hsp] at ih
        simp only [List.headI] at ih ⊢
        simp [hc, ih]

theorem strSplit_length_gt_one (sep : Char) (item : List Char) :
    (1 < (strSplit sep item).length) ↔ sep ∈ item := by
  induction item with
  | nil => simp [strSplit]
  | cons c rest ih =>
    by_cases hc : c = sep
    · subst hc
      constructor
      · intro _; exact List.mem_cons_self c rest
      · intro _
        have h0 : 0 < (strSplit c rest).length :=
          List.length_pos.mpr (strSplit_ne_nil c rest)
        have hs : strSplit c (c :: rest) = [] :: strSplit c rest := by
          simp [strSplit]
        rw [hs, List.length_cons]
        omega
    · simp only [strSplit, if_neg hc]
      cases hsp : strSplit sep rest with
      | nil => exact absurd hsp (strSplit_ne_nil sep rest)
      | cons h t =>
        rw [hsp] at ih
        simp only [List.length_cons] at ih ⊢
        simp only [List.mem_cons]
        constructor
        · intro hlen
          exact Or.inr (ih.mp hlen)
        · intro hmem
          rcases hmem with heq | hmem
          · exact absurd heq.symm hc
          · exact ih.mpr hmem

theorem strSplit_getD_one (sep : Char) (item : List Char) (h : sep ∈ item) :
    (strSplit sep item).getD 1 []
      = ((item.dropWhile (fun c => c ≠ sep)).tail).takeWhile (fun c => c ≠ sep) := by
  induction item with
  | nil => simp at h
  | cons c rest ih =>
    by_cases hc : c = sep
    · subst hc
      have hs : strSplit c (c :: rest) = [] :: strSplit c rest := by
        simp [strSplit]
      rw [hs, List.getD_cons_succ]
      rw [dropWhile_cons_neg rest (by simp)]
      simp only [List.tail_cons]
      cases hsp : strSplit c rest with
      | nil => exact absurd hsp (strSplit_ne_nil c rest)
      | cons a t =>
        have hh := strSplit_headI c rest
        rw [hsp] at hh
        simp only [List.headI] at hh
        simpa using hh
    · have hmem : sep ∈ rest := by
        rcases List.mem_cons.mp h with heq | hm
        · exact absurd heq.symm hc
        · exact hm
      simp only [strSplit, if_neg hc]
      cases hsp : strSplit sep rest with
      | nil => exact absurd hsp (strSplit_ne_nil sep rest)
      | cons a t =>
        rw [hsp] at ih
        simp only [List.getD_cons_succ] at ih ⊢
        rw [List.dropWhile_cons, if_pos (by simpa using hc)]
        exact ih hmem

end CephCrushRule

namespace CephCrushRule

theorem existClass_eq (item : List Char) :
    (if 1 < (strSplit '~' item).length then some ((strSplit '~' item).getD 1 [])
     else none)
      = existClassOf item := by
  by_cases hm : '~' ∈ item
  · rw [if_pos ((strSplit_length_gt_one '~' item).mpr hm),
      strSplit_getD_one '~' item hm, existClassOf, if_pos hm]
  · rw [if_neg (fun hlen => hm ((strSplit_length_gt_one '~' item).mp hlen)),
      existClassOf, if_neg hm]

theorem need_changes_cons_take (br bt dc : Option (List Char)) (step : RuleStep)
    (rest : List RuleStep) (hop : step.op = "take".data) :
    need_changes br bt dc (step :: rest)
      = if some (existRootOf step.item_name) ≠ br ∨ existClassOf step.item_name ≠ dc
        then true else need_changes br bt dc rest := by
  simp only [need_changes, if_pos hop]
  rw [strSplit_headI, existClass_eq]
  rfl

theorem need_changes_cons_chooseleaf (br bt dc : Option (List Char))
    (step : RuleStep) (rest : List RuleStep)
    (hop : step.op ≠ "take".data) (hop2 : step.op = "chooseleaf_firstn".data) :
    need_changes br bt dc (step :: rest)
      = if some step.stype ≠ bt then true else need_changes br bt dc rest := by
  simp only [need_changes, if_neg hop, if_pos hop2]

theorem need_changes_cons_other (br bt dc : Option (List Char)) (step : RuleStep)
    (rest : List RuleStep)
    (hop : step.op ≠ "take".data) (hop2 : step.op ≠ "chooseleaf_firstn".data) :
    need_changes br bt dc (step :: rest) = need_changes br bt dc rest := by
  simp only [need_changes, if_neg hop, if_neg hop2]

/-- C3: `need_changes` returns `true` exactly when some present step
diverges: a `take` step whose `item_name` (split on `~` into root and
optional class) has a root different from `bucket_root` or a class different
from `device_class`, or a `chooseleaf_firstn` step whose type differs from
`bucket_type`; in particular a rule with no such steps yields `false`. -/
theorem need_changes_iff_diverges (br bt dc : Option (List Char))
    (steps : List RuleStep) :
    need_changes br bt dc steps = true ↔ ∃ s ∈ steps, stepDiverges br bt dc s := by
  induction steps with
  | nil => simp [need_changes]
  | cons step rest ih =>
    by_cases hop : step.op = "take".data
    · rw [need_changes_cons_take br bt dc step rest hop]
      by_cases hdiv : some (existRootOf step.item_name) ≠ br
          ∨ existClassOf step.item_name ≠ dc
      · rw [if_pos hdiv]
        exact iff_of_true rfl
          ⟨step, List.mem_cons_self _ _, Or.inl ⟨hop, hdiv⟩⟩
      · rw [if_neg hdiv, ih]
        constructor
        · rintro ⟨s, hs, hd⟩
          exact ⟨s, List.mem_cons_of_mem _ hs, hd⟩
        · rintro ⟨s, hs, hd⟩
          rcases List.mem_cons.mp hs with heq | hmem
          · subst heq
            rcases hd with ⟨_, hd1⟩ | ⟨hop2, _⟩
            · exact absurd hd1 hdiv
            · rw [hop] at hop2
              exact absurd hop2 (by decide)
          · exact ⟨s, hmem, hd⟩
    · by_cases hop2 : step.op = "chooseleaf_firstn".data
      · rw [need_changes_cons_chooseleaf br bt dc step rest hop hop2]
        by_cases hdiv : some step.stype ≠ bt
        · rw [if_pos hdiv]
          exact iff_of_true rfl
            ⟨step, List.mem_cons_self _ _, Or.inr ⟨hop2, hdiv⟩⟩
        · rw [if_neg hdiv, ih]
          constructor
          · rintro ⟨s, hs, hd⟩
            exact ⟨s, List.mem_cons_of_mem _ hs, hd⟩
          · rintro ⟨s, hs, hd⟩
            rcases List.mem_cons.mp hs with heq | hmem
            · subst heq
              rcases hd with ⟨hop1, _⟩ | ⟨_, hd2⟩
              · exact absurd hop1 hop
              · exact absurd hd2 hdiv
            · exact ⟨s, hmem, hd⟩
      · rw [need_changes_cons_other br bt dc step rest hop hop2, ih]
        constructor
        · rintro ⟨s, hs, hd⟩
          exact ⟨s, List.mem_cons_of_mem _ hs, hd⟩
        · rintro ⟨s, hs, hd⟩
          rcases List.mem_cons.mp hs with heq | hmem
          · subst heq
            rcases hd with ⟨hop1, _⟩ | ⟨hop1, _⟩
            · exact absurd hop1 hop
            · exact absurd hop1 hop2
          · exact ⟨s, hmem, hd⟩

/-- Witness for C3: a rule whose only step is `take default` diverges from
desired `bucket_root = rack1`, so `need_changes` answers `true`. -/
theorem need_changes_iff_diverges_witness :
    need_changes (some "rack1".data) (some "host".data) none
      [⟨"take".data, "default".data, []⟩] = true :=
  (need_changes_iff_diverges (some "rack1".data) (some "host".data) none
      [⟨"take".data, "default".data, []⟩]).mpr
    ⟨⟨"take".data, "default".data, []⟩, by simp, Or.inl ⟨rfl, by decide⟩⟩

end CephCrushRule

namespace CephCrushRule

/-- C9 (amended): `need_changes` does NOT conflate the two "absent" shapes —
the comparison is strict.  For a `take` item with no `~` suffix: an absent
(`None`) desired class compares equal (divergence then depends only on the
root), while an explicit empty-string class always reports divergence.
Dually, an item with an empty class suffix (`root~`) always diverges from an
absent desired class, and compares equal to the empty-string class. -/
theorem need_changes_sentinels_amended (br bt : Option (List Char))
    (r : List Char) (h : '~' ∉ r) :
    need_changes br bt (some []) [⟨"take".data, r, []⟩] = true
    ∧ need_changes br bt none [⟨"take".data, r ++ ['~'], []⟩] = true
    ∧ need_changes br bt none [⟨"take".data, r, []⟩] = decide (some r ≠ br)
    ∧ need_changes br bt (some []) [⟨"take".data, r ++ ['~'], []⟩]
        = decide (some r ≠ br) := by
  have hall : ∀ c ∈ r, (fun c => decide (c ≠ '~')) c = true := by
    intro c hc
    simp only [decide_eq_true_eq]
    intro hcc
    exact h (hcc ▸ hc)
  have hroot : existRootOf r = r := takeWhile_all_self hall
  have hclsr : existClassOf r = none := by
    rw [existClassOf, if_neg h]
  have hroot2 : existRootOf (r ++ ['~']) = r := by
    rw [existRootOf, takeWhile_append_all _ hall]
    simp [List.takeWhile_cons]
  have hmem : '~' ∈ r ++ ['~'] := by simp
  have hcls2 : existClassOf (r ++ ['~']) = some [] := by
    rw [existClassOf, if_pos hmem]
    rw [dropWhile_append_all _ hall]
    simp [List.dropWhile_cons]
  refine ⟨?_, ?_, ?_, ?_⟩
  · rw [need_changes_cons_take br bt (some []) _ _ rfl]
    rw [if_pos (Or.inr (by rw [hclsr]; simp))]
  · rw [need_changes_cons_take br bt none _ _ rfl]
    rw [if_pos (Or.inr (by rw [hcls2]; simp))]
  · rw [need_changes_cons_take br bt none _ _ rfl]
    by_cases hbr : some r ≠ br
    · rw [if_pos (Or.inl (by rwa [hroot])), decide_eq_true hbr]
    · rw [if_neg ?neg, decide_eq_false hbr]
      · rfl
      · rintro (h1 | h2)
        · rw [hroot] at h1; exact hbr h1
        · rw [hclsr] at h2; exact h2 rfl
  · rw [need_changes_cons_take br bt (some []) _ _ rfl]
    by_cases hbr : some r ≠ br
    · rw [if_pos (Or.inl (by rwa [hroot2])), decide_eq_true hbr]
    · rw [if_neg ?neg2, decide_eq_false hbr]
      · rfl
      · rintro (h1 | h2)
        · rw [hroot2] at h1; exact hbr h1
        · rw [hcls2] at h2; exact h2 rfl

/-- Witness for C9 (amended) at `r = default`: the strict-comparison facts on
a concrete root token. -/
theorem need_changes_sentinels_amended_witness :
    need_changes (some "default".data) (some "host".data) (some [])
      [⟨"take".data, "default".data, []⟩] = true
    ∧ need_changes (some "default".data) (some "host".data) none
      [⟨"take".data, "default".data ++ ['~'], []⟩] = true
    ∧ need_changes (some "default".data) (some "host".data) none
      [⟨"take".data, "default".data, []⟩] = decide (some "default".data ≠ some "default".data)
    ∧ need_changes (some "default".data) (some "host".data) (some [])
      [⟨"take".data, "default".data ++ ['~'], []⟩]
        = decide (some "default".data ≠ some "default".data) :=
  need_changes_sentinels_amended (some "default".data) (some "host".data)
    "default".data (by decide)

/-- Counterexample for C9 as stated: for the rule whose only step is
`take default`, calling with `device_class = ''` yields `true` while calling
with `device_class` absent yields `false` — the two sentinels are not
equivalent; and `take default~` (empty class suffix) diverges from an absent
desired class instead of comparing equal. -/
theorem need_changes_sentinels_cex :
    need_changes (some "default".data) (some "host".data) (some [])
      [⟨"take".data, "default".data, []⟩] = true
    ∧ need_changes (some "default".data) (some "host".data) none
      [⟨"take".data, "default".data, []⟩] = false
    ∧ need_changes (some "default".data) (some "host".data) none
      [⟨"take".data, "default~".data, []⟩] = true := by
  exact ⟨by decide, by decide, by decide⟩

end CephCrushRule

namespace CephCrushRule

/-! ## The transaction coordinator and the module entry point -/

/-- The result triple of one external command execution. -/
structure ExecOut where
  rc : Int
  stdout : List Char
  stderr : List Char

/-- An external command: a list of argv tokens. -/
abbrev Cmd := List (List Char)

/-- Modelled from the spec: the cluster command executor provided by the
missing `ceph_common` module utilities (`exec_command`) — runs an argument
list synchronously and yields exit code, stdout and stderr (§6). -/
abbrev Executor := Cmd → ExecOut

/-- Modelled from the spec: the JSON-decoded rule returned by the rule dump
(JSON deserialisation is an external collaborator, §1): the `type` code and
the ordered steps. -/
structure Rule where
  rtype : Int
  steps : List RuleStep

/-- Modelled from the spec: the environment of one module run — the wrapper
prefix produced by the missing `build_base_cmd_shell`, the executor, the JSON
parser, the two scoped temporary directories, and the text the external
decompiler writes into its output file. -/
structure World where
  base : Cmd
  E : Executor
  parseRule : List Char → Rule
  tmpdirDec : List Char
  tmpdirInst : List Char
  decompiledText : List Char

/-- The module parameters of `main` (argument spec, lines 350–376). -/
structure Params where
  name : List Char
  state : List Char
  rule_type : Option (List Char)
  bucket_root : Option (List Char)
  bucket_type : Option (List Char)
  device_class : Option (List Char)
  profile : Option (List Char)
  check_mode : Bool

/-- Python truthiness of an optional string parameter (`None` and `''` are
falsy). -/
def truthyOpt : Option (List Char) → Bool
  | some s => !s.isEmpty
  | none => false

/-- Python `str(x)` of an optional string, as `'{}'.format` renders it. -/
def optStr : Option (List Char) → List Char
  | some s => s
  | none => "None".data

/-- The module's `RULE_TYPES` table (lines 143–146); an absent code raises
`KeyError` in Python. -/
def RULE_TYPES (n : Int) : Option (List Char) :=
  if n = 1 then some "replicated".data
  else if n = 3 then some "erasure".data
  else none

/-- `ceph osd crush rule dump <name> --format=json` (lines 397–398). -/
def get_rule_cmd (base : Cmd) (name : List Char) : Cmd :=
  base ++ ["ceph".data, "osd".data, "crush".data, "rule".data, "dump".data,
           name, "--format=json".data]

/-- The map dump command of `decompile_crushmap` (lines 236–240). -/
def dump_crush_cmd (base : Cmd) (tmpdir : List Char) : Cmd :=
  base ++ ["--mount".data, tmpdir ++ [':'] ++ tmpdir, "--".data,
           "ceph".data, "osd".data, "getcrushmap".data, "-o".data,
           tmpdir ++ "/_raw_crushmap.bin".data]

/-- The decompile command of `decompile_crushmap` (lines 246–247). -/
def decompile_cmd (base : Cmd) (tmpdir : List Char) : Cmd :=
  base ++ ["--mount".data, tmpdir ++ [':'] ++ tmpdir, "--".data,
           "crushtool".data, "-d".data, tmpdir ++ "/_raw_crushmap.bin".data,
           "-o".data, tmpdir ++ "/_crushmap.txt".data]

/-- The compile command of `install_crushmap` (lines 333–334). -/
def compile_cmd (base : Cmd) (tmpdir : List Char) : Cmd :=
  base ++ ["--mount".data, tmpdir ++ [':'] ++ tmpdir, "--".data,
           "crushtool".data, "-c".data, tmpdir ++ "/_patched_crushmap.txt".data,
           "-o".data, tmpdir ++ "/_raw_patched_crushmap.bin".data]

/-- The install command of `install_crushmap` (lines 340–341). -/
def install_cmd (base : Cmd) (tmpdir : List Char) : Cmd :=
  base ++ ["--mount".data, tmpdir ++ [':'] ++ tmpdir, "--".data,
           "ceph".data, "osd".data, "setcrushmap".data, "-i".data,
           tmpdir ++ "/_raw_patched_crushmap.bin".data]

/-- `create_rule` (lines 149–176): the creation command.  The argument spec's
`required_if` guarantees the `getD`-defaulted parameters are present on the
branches that read them. -/
def create_rule (p : Params) (base : Cmd) : Cmd :=
  base ++ ["ceph".data, "osd".data, "crush".data, "rule".data] ++
    (if p.rule_type = some "replicated".data then
      ["create-replicated".data, p.name, p.bucket_root.getD [],
       p.bucket_type.getD []]
        ++ (if truthyOpt p.device_class then [p.device_class.getD []] else [])
    else
      ["create-erasure".data, p.name]
        ++ (if truthyOpt p.profile then [p.profile.getD []] else []))

/-- `remove_rule` (lines 179–192): the removal command. -/
def remove_rule (p : Params) (base : Cmd) : Cmd :=
  base ++ ["ceph".data, "osd".data, "crush".data, "rule".data, "rm".data,
           p.name]

/-- `decompile_crushmap` (lines 222–256): dump the binary map, decompile it,
read the decompiled text.  Returns the `(rc, cmd, out, err)` tuple of the
source together with the list of commands actually executed. -/
def decompile_crushmap (w : World) :
    (Int × Cmd × List Char × List Char) × List Cmd :=
  let dump_crush_map := dump_crush_cmd w.base w.tmpdirDec
  let res := w.E dump_crush_map
  if res.rc ≠ 0 then
    ((res.rc, dump_crush_map,
      "dump of the CRUSH map failed with output: ".data ++ res.stdout,
      res.stderr), [dump_crush_map])
  else
    let decompile_map := decompile_cmd w.base w.tmpdirDec
    let res2 := w.E decompile_map
    if res2.rc ≠ 0 then
      ((res2.rc, decompile_map,
        "decompile of the CRUSH map failed with output: ".data ++ res2.stdout,
        res2.stderr), [dump_crush_map, decompile_map])
    else
      ((0, decompile_map, w.decompiledText, []),
        [dump_crush_map, decompile_map])

/-- `install_crushmap` (lines 315–347): write the patched text (an external
file effect), compile it, install it.  Returns the source's result tuple and
the executed commands. -/
def install_crushmap (w : World) (crushmap_content : List Char) :
    (Int × Cmd × List Char × List Char) × List Cmd :=
  let _ := crushmap_content
  let compile_map := compile_cmd w.base w.tmpdirInst
  let res := w.E compile_map
  if res.rc ≠ 0 then
    ((res.rc, compile_map,
      "compilation of the CRUSH map failed with output: ".data ++ res.stdout,
      res.stderr), [compile_map])
  else
    let install_map := install_cmd w.base w.tmpdirInst
    let res2 := w.E install_map
    if res2.rc ≠ 0 then
      ((res2.rc, install_map,
        "installation of the CRUSH map failed with output: ".data ++ res2.stdout,
        res2.stderr), [compile_map, install_map])
    else
      ((res2.rc, install_map, res2.stdout, res2.stderr),
        [compile_map, install_map])

/-- How one run of the module terminates: `exit_module` (modelled from the
spec: surfaces rc, the last command, stdout, stderr and the changed flag),
`fail_json`, the check-mode early exit, or an uncaught Python exception
(`KeyError` on an unknown rule type code, `TypeError` on a `None` parameter
reaching string operations). -/
inductive ModuleExit
  | exited (rc : Int) (cmd : Cmd) (out err : List Char) (changed : Bool)
  | failed (msg : List Char) (changed : Bool) (rc : Int)
  | checkModeExit
  | raised
deriving DecidableEq

/-- `main` (lines 350–430): the full reconciliation flow, returning the
module exit and the list of external commands executed, in order. -/
def ceph_crush_rule_main (p : Params) (w : World) : ModuleExit × List Cmd :=
  if p.check_mode then (ModuleExit.checkModeExit, []) else
  let get_rule := get_rule_cmd w.base p.name
  let r := w.E get_rule
  if p.state = "present".data then
    if r.rc ≠ 0 then
      let c := create_rule p w.base
      let r2 := w.E c
      (ModuleExit.exited r2.rc c r2.stdout r2.stderr true, [get_rule, c])
    else
      let rule := w.parseRule r.stdout
      match RULE_TYPES rule.rtype with
      | none => (ModuleExit.raised, [get_rule])
      | some t =>
        if p.rule_type ≠ some t then
          (ModuleExit.failed
            ("Can not convert crush rule ".data ++ p.name ++ " to ".data
              ++ optStr p.rule_type) false 1,
            [get_rule])
        else
          if p.rule_type = some "replicated".data
              ∧ need_changes p.bucket_root p.bucket_type p.device_class
                  rule.steps then
            let dres := decompile_crushmap w
            if dres.1.1 ≠ 0 then
              (ModuleExit.exited dres.1.1 dres.1.2.1 dres.1.2.2.1 dres.1.2.2.2
                false, get_rule :: dres.2)
            else
              match p.bucket_root, p.bucket_type with
              | some br, some bt =>
                let patched :=
                  patch_content ⟨p.name, br, bt, p.device_class⟩ dres.1.2.2.1
                let ires := install_crushmap w patched
                (ModuleExit.exited ires.1.1 ires.1.2.1 ires.1.2.2.1
                  ires.1.2.2.2 true, get_rule :: (dres.2 ++ ires.2))
              | _, _ => (ModuleExit.raised, get_rule :: dres.2)
          else
            (ModuleExit.exited r.rc get_rule r.stdout r.stderr false,
              [get_rule])
  else if p.state = "absent".data then
    if r.rc = 0 then
      let c := remove_rule p w.base
      let r2 := w.E c
      (ModuleExit.exited r2.rc c r2.stdout r2.stderr true, [get_rule, c])
    else
      (ModuleExit.exited 0 get_rule
        ("Crush Rule ".data ++ p.name ++ " doesn".data ++ ['\x27']
          ++ "t exist".data)
        r.stderr false, [get_rule])
  else
    (ModuleExit.exited r.rc get_rule r.stdout r.stderr false, [get_rule])

end CephCrushRule

namespace CephCrushRule

theorem append_ne_of_length_ne (base : Cmd) {u v : Cmd}
    (h : u.length ≠ v.length) : base ++ u ≠ base ++ v := by
  intro he
  apply h
  have hlen := congrArg List.length he
  simp only [List.length_append] at hlen
  omega

theorem append_ne_of_getD_ne (base : Cmd) (k : Nat) {u v : Cmd}
    (h : u.getD k [] ≠ v.getD k []) : base ++ u ≠ base ++ v := by
  intro he
  exact h (by rw [List.append_cancel_left he])

theorem dump_ne_get_rule (base : Cmd) (t n : List Char) :
    dump_crush_cmd base t ≠ get_rule_cmd base n :=
  append_ne_of_length_ne base (by simp)

theorem compile_ne_get_rule (base : Cmd) (t n : List Char) :
    compile_cmd base t ≠ get_rule_cmd base n :=
  append_ne_of_length_ne base (by simp)

theorem install_ne_get_rule (base : Cmd) (t n : List Char) :
    install_cmd base t ≠ get_rule_cmd base n :=
  append_ne_of_length_ne base (by simp)

theorem remove_ne_get_rule (p : Params) (base : Cmd) (n : List Char) :
    remove_rule p base ≠ get_rule_cmd base n :=
  append_ne_of_length_ne base (by simp)

theorem compile_ne_dump (base : Cmd) (t1 t2 : List Char) :
    compile_cmd base t1 ≠ dump_crush_cmd base t2 := by
  apply append_ne_of_getD_ne base 3
  simp only [List.getD_cons_succ, List.getD_cons_zero]
  decide

theorem compile_ne_decompile (base : Cmd) (t1 t2 : List Char) :
    compile_cmd base t1 ≠ decompile_cmd base t2 := by
  apply append_ne_of_getD_ne base 4
  simp only [List.getD_cons_succ, List.getD_cons_zero]
  decide

theorem install_ne_dump (base : Cmd) (t1 t2 : List Char) :
    install_cmd base t1 ≠ dump_crush_cmd base t2 := by
  apply append_ne_of_getD_ne base 5
  simp only [List.getD_cons_succ, List.getD_cons_zero]
  decide

theorem install_ne_decompile (base : Cmd) (t1 t2 : List Char) :
    install_cmd base t1 ≠ decompile_cmd base t2 := by
  apply append_ne_of_getD_ne base 3
  simp only [List.getD_cons_succ, List.getD_cons_zero]
  decide

/-- C5: with `state = present`, when the named rule exists (dump exit 0) and
its decoded type differs from the desired `rule_type`, the module fails
immediately via `fail_json` with `changed = false` and `rc = 1`, and the only
external command executed is the read-only rule dump — no mutating command
runs. -/
theorem main_type_mismatch_fatal (p : Params) (w : World) (t : List Char)
    (hcm : p.check_mode = false)
    (hst : p.state = "present".data)
    (hrc : (w.E (get_rule_cmd w.base p.name)).rc = 0)
    (hty : RULE_TYPES
        (w.parseRule (w.E (get_rule_cmd w.base p.name)).stdout).rtype = some t)
    (hne : p.rule_type ≠ some t) :
    ceph_crush_rule_main p w
      = (ModuleExit.failed
          ("Can not convert crush rule ".data ++ p.name ++ " to ".data
            ++ optStr p.rule_type) false 1,
        [get_rule_cmd w.base p.name]) := by
  simp [ceph_crush_rule_main, hcm, hst, hrc, hty, hne]

/-- C8: with `state = present`, an existing replicated rule and
`need_changes` reporting no divergence, the module exits with
`changed = false`, surfacing the dump's output, and executes only the
read-only rule dump: the map dump, compile and install commands are not
invoked. -/
theorem main_idempotent_no_change (p : Params) (w : World)
    (hcm : p.check_mode = false)
    (hst : p.state = "present".data)
    (hrc : (w.E (get_rule_cmd w.base p.name)).rc = 0)
    (hty : RULE_TYPES
        (w.parseRule (w.E (get_rule_cmd w.base p.name)).stdout).rtype
      = some "replicated".data)
    (hrt : p.rule_type = some "replicated".data)
    (hnc : need_changes p.bucket_root p.bucket_type p.device_class
        (w.parseRule (w.E (get_rule_cmd w.base p.name)).stdout).steps = false) :
    ceph_crush_rule_main p w
      = (ModuleExit.exited 0 (get_rule_cmd w.base p.name)
          (w.E (get_rule_cmd w.base p.name)).stdout
          (w.E (get_rule_cmd w.base p.name)).stderr false,
        [get_rule_cmd w.base p.name])
    ∧ dump_crush_cmd w.base w.tmpdirDec ∉ (ceph_crush_rule_main p w).2
    ∧ compile_cmd w.base w.tmpdirInst ∉ (ceph_crush_rule_main p w).2
    ∧ install_cmd w.base w.tmpdirInst ∉ (ceph_crush_rule_main p w).2 := by
  have hmain : ceph_crush_rule_main p w
      = (ModuleExit.exited 0 (get_rule_cmd w.base p.name)
          (w.E (get_rule_cmd w.base p.name)).stdout
          (w.E (get_rule_cmd w.base p.name)).stderr false,
        [get_rule_cmd w.base p.name]) := by
    simp [ceph_crush_rule_main, hcm, hst, hrc, hty, hrt, hnc]
  refine ⟨hmain, ?_, ?_, ?_⟩ <;> rw [hmain] <;> simp only [List.mem_singleton]
  · exact dump_ne_get_rule w.base w.tmpdirDec p.name
  · exact compile_ne_get_rule w.base w.tmpdirInst p.name
  · exact install_ne_get_rule w.base w.tmpdirInst p.name

end CephCrushRule

namespace CephCrushRule

/-- C4: once the replicated-rule reconciliation needs changes, a nonzero exit
of the map-dump step, or of the decompile step, short-circuits the flow: the
compile and install commands are never executed, the module exits with the
failing stage named in the surfaced output (`dump of the CRUSH map failed
with output: …` resp. `decompile of the CRUSH map failed with output: …`,
carrying the external stdout) and the raw external stderr passed through. -/
theorem main_decompile_failfast (p : Params) (w : World)
    (hcm : p.check_mode = false)
    (hst : p.state = "present".data)
    (hrc : (w.E (get_rule_cmd w.base p.name)).rc = 0)
    (hty : RULE_TYPES
        (w.parseRule (w.E (get_rule_cmd w.base p.name)).stdout).rtype
      = some "replicated".data)
    (hrt : p.rule_type = some "replicated".data)
    (hnc : need_changes p.bucket_root p.bucket_type p.device_class
        (w.parseRule (w.E (get_rule_cmd w.base p.name)).stdout).steps = true) :
    ((w.E (dump_crush_cmd w.base w.tmpdirDec)).rc ≠ 0 →
      ceph_crush_rule_main p w
        = (ModuleExit.exited (w.E (dump_crush_cmd w.base w.tmpdirDec)).rc
            (dump_crush_cmd w.base w.tmpdirDec)
            ("dump of the CRUSH map failed with output: ".data
              ++ (w.E (dump_crush_cmd w.base w.tmpdirDec)).stdout)
            (w.E (dump_crush_cmd w.base w.tmpdirDec)).stderr false,
          [get_rule_cmd w.base p.name, dump_crush_cmd w.base w.tmpdirDec])
      ∧ compile_cmd w.base w.tmpdirInst ∉ (ceph_crush_rule_main p w).2
      ∧ install_cmd w.base w.tmpdirInst ∉ (ceph_crush_rule_main p w).2)
    ∧ ((w.E (dump_crush_cmd w.base w.tmpdirDec)).rc = 0 →
      (w.E (decompile_cmd w.base w.tmpdirDec)).rc ≠ 0 →
      ceph_crush_rule_main p w
        = (ModuleExit.exited (w.E (decompile_cmd w.base w.tmpdirDec)).rc
            (decompile_cmd w.base w.tmpdirDec)
            ("decompile of the CRUSH map failed with output: ".data
              ++ (w.E (decompile_cmd w.base w.tmpdirDec)).stdout)
            (w.E (decompile_cmd w.base w.tmpdirDec)).stderr false,
          [get_rule_cmd w.base p.name, dump_crush_cmd w.base w.tmpdirDec,
            decompile_cmd w.base w.tmpdirDec])
      ∧ compile_cmd w.base w.tmpdirInst ∉ (ceph_crush_rule_main p w).2
      ∧ install_cmd w.base w.tmpdirInst ∉ (ceph_crush_rule_main p w).2) := by
  constructor
  · intro hd
    have hdec : decompile_crushmap w
        = (((w.E (dump_crush_cmd w.base w.tmpdirDec)).rc,
            dump_crush_cmd w.base w.tmpdirDec,
            "dump of the CRUSH map failed with output: ".data
              ++ (w.E (dump_crush_cmd w.base w.tmpdirDec)).stdout,
            (w.E (dump_crush_cmd w.base w.tmpdirDec)).stderr),
          [dump_crush_cmd w.base w.tmpdirDec]) := by
      simp [decompile_crushmap, hd]
    have hmain : ceph_crush_rule_main p w
        = (ModuleExit.exited (w.E (dump_crush_cmd w.base w.tmpdirDec)).rc
            (dump_crush_cmd w.base w.tmpdirDec)
            ("dump of the CRUSH map failed with output: ".data
              ++ (w.E (dump_crush_cmd w.base w.tmpdirDec)).stdout)
            (w.E (dump_crush_cmd w.base w.tmpdirDec)).stderr false,
          [get_rule_cmd w.base p.name, dump_crush_cmd w.base w.tmpdirDec]) := by
      simp [ceph_crush_rule_main, hcm, hst, hrc, hty, hrt, hnc, hdec, hd]
    refine ⟨hmain, ?_, ?_⟩ <;> rw [hmain] <;>
      simp only [List.mem_cons, List.mem_singleton, List.not_mem_nil, or_false,
        not_or]
    · exact ⟨compile_ne_get_rule w.base w.tmpdirInst p.name,
        compile_ne_dump w.base w.tmpdirInst w.tmpdirDec⟩
    · exact ⟨install_ne_get_rule w.base w.tmpdirInst p.name,
        install_ne_dump w.base w.tmpdirInst w.tmpdirDec⟩
  · intro hd0 hd
    have hdec : decompile_crushmap w
        = (((w.E (decompile_cmd w.base w.tmpdirDec)).rc,
            decompile_cmd w.base w.tmpdirDec,
            "decompile of the CRUSH map failed with output: ".data
              ++ (w.E (decompile_cmd w.base w.tmpdirDec)).stdout,
            (w.E (decompile_cmd w.base w.tmpdirDec)).stderr),
          [dump_crush_cmd w.base w.tmpdirDec,
            decompile_cmd w.base w.tmpdirDec]) := by
      simp [decompile_crushmap, hd0, hd]
    have hmain : ceph_crush_rule_main p w
        = (ModuleExit.exited (w.E (decompile_cmd w.base w.tmpdirDec)).rc
            (decompile_cmd w.base w.tmpdirDec)
            ("decompile of the CRUSH map failed with output: ".data
              ++ (w.E (decompile_cmd w.base w.tmpdirDec)).stdout)
            (w.E (decompile_cmd w.base w.tmpdirDec)).stderr false,
          [get_rule_cmd w.base p.name, dump_crush_cmd w.base w.tmpdirDec,
            decompile_cmd w.base w.tmpdirDec]) := by
      simp [ceph_crush_rule_main, hcm, hst, hrc, hty, hrt, hnc, hdec, hd]
    refine ⟨hmain, ?_, ?_⟩ <;> rw [hmain] <;>
      simp only [List.mem_cons, List.mem_singleton, List.not_mem_nil, or_false,
        not_or]
    · exact ⟨compile_ne_get_rule w.base w.tmpdirInst p.name,
        compile_ne_dump w.base w.tmpdirInst w.tmpdirDec,
        compile_ne_decompile w.base w.tmpdirInst w.tmpdirDec⟩
    · exact ⟨install_ne_get_rule w.base w.tmpdirInst p.name,
        install_ne_dump w.base w.tmpdirInst w.tmpdirDec,
        install_ne_decompile w.base w.tmpdirInst w.tmpdirDec⟩

/-- C10: with `state = absent` and the initial rule dump reporting the rule
does not exist (nonzero exit), the module exits with rc 0, `changed = false`
and the message `Crush Rule <name> doesn't exist`; the removal command is
never executed — the only external call is the read-only dump. -/
theorem main_absent_missing_rule (p : Params) (w : World)
    (hcm : p.check_mode = false)
    (hst : p.state = "absent".data)
    (hrc : (w.E (get_rule_cmd w.base p.name)).rc ≠ 0) :
    ceph_crush_rule_main p w
      = (ModuleExit.exited 0 (get_rule_cmd w.base p.name)
          ("Crush Rule ".data ++ p.name ++ " doesn".data ++ ['\x27']
            ++ "t exist".data)
          (w.E (get_rule_cmd w.base p.name)).stderr false,
        [get_rule_cmd w.base p.name])
    ∧ remove_rule p w.base ∉ (ceph_crush_rule_main p w).2 := by
  have hsp : ("absent".data : List Char) ≠ "present".data := by decide
  have hmain : ceph_crush_rule_main p w
      = (ModuleExit.exited 0 (get_rule_cmd w.base p.name)
          ("Crush Rule ".data ++ p.name ++ " doesn".data ++ ['\x27']
            ++ "t exist".data)
          (w.E (get_rule_cmd w.base p.name)).stderr false,
        [get_rule_cmd w.base p.name]) := by
    simp [ceph_crush_rule_main, hcm, hst, hsp, hrc]
  refine ⟨hmain, ?_⟩
  rw [hmain]
  simp only [List.mem_singleton]
  exact remove_ne_get_rule p w.base p.name

end CephCrushRule

namespace CephCrushRule

/-- Concrete run for the C4 witness: desired replicated rule `foo` over
`rack1`/`host`, existing rule diverging (`take default`), the external
decompile command failing with stdout `boom` and stderr `decerr`. -/
def pC4 : Params :=
  ⟨"foo".data, "present".data, some "replicated".data, some "rack1".data,
    some "host".data, none, none, false⟩

def wC4 : World :=
  ⟨[],
    fun c => if c = decompile_cmd [] "/t1".data
      then ⟨1, "boom".data, "decerr".data⟩
      else ⟨0, "out".data, []⟩,
    fun _ => ⟨1, [⟨"take".data, "default".data, []⟩]⟩,
    "/t1".data, "/t2".data, []⟩

/-- Witness for C4 at a concrete failing decompile step. -/
theorem main_decompile_failfast_witness :
    ceph_crush_rule_main pC4 wC4
      = (ModuleExit.exited (wC4.E (decompile_cmd wC4.base wC4.tmpdirDec)).rc
          (decompile_cmd wC4.base wC4.tmpdirDec)
          ("decompile of the CRUSH map failed with output: ".data
            ++ (wC4.E (decompile_cmd wC4.base wC4.tmpdirDec)).stdout)
          (wC4.E (decompile_cmd wC4.base wC4.tmpdirDec)).stderr false,
        [get_rule_cmd wC4.base pC4.name, dump_crush_cmd wC4.base wC4.tmpdirDec,
          decompile_cmd wC4.base wC4.tmpdirDec]) :=
  ((main_decompile_failfast pC4 wC4 rfl rfl (by decide) (by decide) rfl
      (by decide)).2 (by decide) (by decide)).1

/-- Concrete run for the C5 witness: desired erasure rule against an existing
replicated rule of the same name. -/
def pC5 : Params :=
  ⟨"foo".data, "present".data, some "erasure".data, none, none, none,
    some "prof".data, false⟩

def wC5 : World :=
  ⟨[], fun _ => ⟨0, "rulejson".data, []⟩, fun _ => ⟨1, []⟩, [], [], []⟩

/-- Witness for C5 at a concrete type mismatch. -/
theorem main_type_mismatch_fatal_witness :
    ceph_crush_rule_main pC5 wC5
      = (ModuleExit.failed
          ("Can not convert crush rule ".data ++ pC5.name ++ " to ".data
            ++ optStr pC5.rule_type) false 1,
        [get_rule_cmd wC5.base pC5.name]) :=
  main_type_mismatch_fatal pC5 wC5 "replicated".data rfl rfl (by decide)
    (by decide) (by decide)

/-- Concrete run for the C8 witness: the existing rule already matches the
desired root `rack1`, absent class, and failure domain `host`. -/
def pC8 : Params :=
  ⟨"foo".data, "present".data, some "replicated".data, some "rack1".data,
    some "host".data, none, none, false⟩

def wC8 : World :=
  ⟨[], fun _ => ⟨0, "dumpjson".data, []⟩,
    fun _ => ⟨1, [⟨"take".data, "rack1".data, []⟩,
      ⟨"chooseleaf_firstn".data, [], "host".data⟩]⟩,
    "/a".data, "/b".data, []⟩

/-- Witness for C8 at a concrete already-matching rule. -/
theorem main_idempotent_no_change_witness :
    ceph_crush_rule_main pC8 wC8
      = (ModuleExit.exited 0 (get_rule_cmd wC8.base pC8.name)
          (wC8.E (get_rule_cmd wC8.base pC8.name)).stdout
          (wC8.E (get_rule_cmd wC8.base pC8.name)).stderr false,
        [get_rule_cmd wC8.base pC8.name])
    ∧ dump_crush_cmd wC8.base wC8.tmpdirDec ∉ (ceph_crush_rule_main pC8 wC8).2
    ∧ compile_cmd wC8.base wC8.tmpdirInst ∉ (ceph_crush_rule_main pC8 wC8).2
    ∧ install_cmd wC8.base wC8.tmpdirInst ∉ (ceph_crush_rule_main pC8 wC8).2 :=
  main_idempotent_no_change pC8 wC8 rfl rfl (by decide) (by decide) rfl
    (by decide)

/-- Concrete run for the C10 witness: `state = absent`, the rule dump exits 2
(rule does not exist). -/
def pC10 : Params :=
  ⟨"foo".data, "absent".data, none, none, none, none, none, false⟩

def wC10 : World :=
  ⟨[], fun _ => ⟨2, [], "err".data⟩, fun _ => ⟨1, []⟩, [], [], []⟩

/-- Witness for C10 at a concrete absent rule. -/
theorem main_absent_missing_rule_witness :
    ceph_crush_rule_main pC10 wC10
      = (ModuleExit.exited 0 (get_rule_cmd wC10.base pC10.name)
          ("Crush Rule ".data ++ pC10.name ++ " doesn".data ++ ['\x27']
            ++ "t exist".data)
          (wC10.E (get_rule_cmd wC10.base pC10.name)).stderr false,
        [get_rule_cmd wC10.base pC10.name])
    ∧ remove_rule pC10 wC10.base ∉ (ceph_crush_rule_main pC10 wC10).2 :=
  main_absent_missing_rule pC10 wC10 rfl rfl (by decide)

end CephCrushRule
